import Mathlib

/-!
Verification of the XLSX-Processing-API repository (files
`file_processing.py` and `main.py`) against its specification.

The development shallowly embeds the Python source: strings are lists
of characters, Python floats are idealised as exact scaled decimals
(`Dec`, an integer mantissa over a power-of-ten denominator, with
rational semantics via `Dec.toRat` — the pipeline only parses,
compares and subtracts quantities, and all of those are exact on the
decimal literals the program handles), a cell of the table is a
`Value` (the pandas NaN / missing marker, a string, or a finite
number), and the pipeline `process_xlsb_file` becomes a total function
from an in-memory `Table` to `Except PipelineError Table`.
-/

namespace XlsxProc

/-- Auxiliary, fuel-indexed form of Python `s.replace(pat, rep)`.
The fuel only serves to make the recursion structural; it is always
called with enough fuel (one unit per character of the scanned list). -/
def replaceAllAux (pat rep : List Char) : ℕ → List Char → List Char
  | 0, l => l
  | _ + 1, [] => []
  | fuel + 1, c :: cs =>
    if pat ≠ [] ∧ pat.isPrefixOf (c :: cs) then
      rep ++ replaceAllAux pat rep fuel ((c :: cs).drop pat.length)
    else
      c :: replaceAllAux pat rep fuel cs

/-- Embedding of Python `s.replace(pat, rep)` (for a non-empty `pat`):
scan left to right, replacing each non-overlapping occurrence of `pat`
by `rep`.  (The source only ever calls `replace` with non-empty
patterns; an empty pattern is treated as no match.) -/
def replaceAll (pat rep l : List Char) : List Char :=
  replaceAllAux pat rep l.length l

/-- Embedding of Python `s.strip()` (the source data is ASCII-spaced,
so stripping the standard whitespace characters is faithful): drop
whitespace from both ends. -/
def pyStrip (l : List Char) : List Char :=
  ((l.dropWhile Char.isWhitespace).reverse.dropWhile Char.isWhitespace).reverse

/-- Numeric value of a list of decimal digits (most significant first). -/
def digitsToNat (l : List Char) : ℕ :=
  l.foldl (fun acc c => 10 * acc + (c.toNat - '0'.toNat)) 0

/-- Exact scaled decimal `man / 10 ^ exp`: the idealisation of a Python
float as it is used by the pipeline (parsed from a decimal literal,
compared, subtracted — all exact operations). -/
structure Dec where
  man : ℤ
  exp : ℕ
deriving DecidableEq, Repr

/-- Rational value denoted by a scaled decimal. -/
def Dec.toRat (d : Dec) : ℚ := (d.man : ℚ) / 10 ^ d.exp

/-- Strict order on scaled decimals by cross multiplication
(`a < b` as floats). -/
def Dec.blt (a b : Dec) : Bool := a.man * 10 ^ b.exp < b.man * 10 ^ a.exp

/-- Exact subtraction of scaled decimals (`a - b` as floats). -/
def Dec.sub (a b : Dec) : Dec :=
  ⟨a.man * 10 ^ b.exp - b.man * 10 ^ a.exp, a.exp + b.exp⟩

/-- Embedding of Python `float(s)` on finite decimal literals: optional
surrounding whitespace, optional sign, then `digits [. digits]` or
`. digits` (at least one digit overall), then an optional exponent
`e`/`E` with optional sign and mandatory digits; the whole string must
be consumed.  The special literals `inf`/`nan` and underscore digit
separators accepted by CPython are outside the model (no claim in
scope involves them). -/
def parseFloat (l0 : List Char) : Option Dec :=
  let l := pyStrip l0
  let (neg, l) : Bool × List Char :=
    match l with
    | '-' :: rest => (true, rest)
    | '+' :: rest => (false, rest)
    | rest => (false, rest)
  let intPart := l.takeWhile Char.isDigit
  let l1 := l.dropWhile Char.isDigit
  let (fracPart, l2) : List Char × List Char :=
    match l1 with
    | '.' :: rest => (rest.takeWhile Char.isDigit, rest.dropWhile Char.isDigit)
    | rest => ([], rest)
  if intPart = [] ∧ fracPart = [] then none
  else
    let man0 : ℤ := (digitsToNat (intPart ++ fracPart) : ℤ)
    let man : ℤ := if neg then -man0 else man0
    let mkDec : ℤ → Dec := fun eAdj =>
      if 0 ≤ (fracPart.length : ℤ) - eAdj then
        ⟨man, ((fracPart.length : ℤ) - eAdj).toNat⟩
      else
        ⟨man * 10 ^ (eAdj - (fracPart.length : ℤ)).toNat, 0⟩
    match l2 with
    | [] => some (mkDec 0)
    | e :: rest =>
      if e = 'e' ∨ e = 'E' then
        let (eneg, rest) : Bool × List Char :=
          match rest with
          | '-' :: r => (true, r)
          | '+' :: r => (false, r)
          | r => (false, r)
        let eDigits := rest.takeWhile Char.isDigit
        let rest2 := rest.dropWhile Char.isDigit
        if eDigits = [] ∨ rest2 ≠ [] then none
        else
          let ev : ℤ := (digitsToNat eDigits : ℤ)
          some (mkDec (if eneg then -ev else ev))
      else none

/-- A spreadsheet cell as pandas sees it: the NaN / missing marker
(`pd.isna` is true exactly here), a text value, or a finite number. -/
inductive Value where
  | missing
  | str (s : List Char)
  | num (d : Dec)
deriving DecidableEq, Repr

/-- Decimal digit character of `n < 10`. -/
def digitChar (n : ℕ) : Char := Char.ofNat ('0'.toNat + n)

/-- Decimal digits of a natural number, via structural fuel
(the fuel `n + 1` always suffices since `n / 10 < n` for `n ≥ 10`). -/
def natDigitsAux : ℕ → ℕ → List Char
  | 0, _ => []
  | fuel + 1, n =>
    if n < 10 then [digitChar n]
    else natDigitsAux fuel (n / 10) ++ [digitChar (n % 10)]

/-- Decimal digits of a natural number, most significant first. -/
def natDigits (n : ℕ) : List Char := natDigitsAux (n + 1) n

/-- Rendering of a scaled decimal as Python renders the corresponding
number: an integer (`exp = 0`) prints without a decimal point, and a
float prints its mantissa with the point inserted `exp` places from
the right (zero-padded), e.g. `⟨800, 1⟩ ↦ "80.0"`, `⟨5, 3⟩ ↦ "0.005"`. -/
def renderDec (d : Dec) : List Char :=
  let sign : List Char := if d.man < 0 then ['-'] else []
  let ds := natDigits d.man.natAbs
  if d.exp = 0 then sign ++ ds
  else
    let padded := List.replicate (d.exp + 1 - ds.length) '0' ++ ds
    sign ++ padded.take (padded.length - d.exp) ++ '.' ::
      padded.drop (padded.length - d.exp)

/-- Embedding of Python `str(x)` on a cell value: the missing marker is
the float NaN, which prints as `"nan"`; text prints as itself; numbers
print via `renderDec`. -/
def pyStrVal : Value → List Char
  | .missing => "nan".data
  | .str s => s
  | .num d => renderDec d

/-- The unit-of-measure tokens stripped by `normalize_numeric`, in the
order the source iterates over them.  All seven are Cyrillic spellings
(`М3`, `КГ`, `Т`, `шт`, `кг`, `т`, `м3`); the source contains no Latin
variants. -/
def units : List (List Char) :=
  [['М', '3'], ['К', 'Г'], ['Т'], ['ш', 'т'], ['к', 'г'], ['т'], ['м', '3']]

/-- The cleaning phase of `normalize_numeric` on the text of a
non-missing value: replace every comma with a dot, then for each unit
token in order remove all its occurrences and strip surrounding
whitespace. -/
def cleanText (s : List Char) : List Char :=
  units.foldl (fun acc u => pyStrip (replaceAll u [] acc))
    (replaceAll [','] ['.'] s)

/-- Embedding of `normalize_numeric` from `file_processing.py`: missing
values pass through; otherwise the value is converted to text, cleaned
(`cleanText`), and parsed as a float; on parse failure the cleaned text
(the rebound `value` variable of the source) is returned. -/
def normalize_numeric (v : Value) : Value :=
  match v with
  | .missing => .missing
  | v =>
    let cleaned := cleanText (pyStrVal v)
    match parseFloat cleaned with
    | some d => .num d
    | none => .str cleaned

/-- An in-memory pandas DataFrame as the pipeline uses it: named
columns and rows of cells (a row lists its cells in column order). -/
structure Table where
  cols : List String
  rows : List (List Value)
deriving DecidableEq, Repr

/-- Cell of a row under a column layout, by column name (missing when
the name or the cell is absent — the pipeline only reads validated
columns). -/
def getCell (cols : List String) (r : List Value) (name : String) : Value :=
  match cols.findIdx? (· = name) with
  | some i => r.getD i .missing
  | none => .missing

/-- One row under `df[name] = df[name].apply(f)`: replace the cell of
the named column by `f` of it (identity when the column is absent —
the pipeline only rewrites validated columns). -/
def colFn (cols : List String) (name : String) (f : Value → Value)
    (r : List Value) : List Value :=
  match cols.findIdx? (· = name) with
  | some i => r.set i (f (r.getD i .missing))
  | none => r

/-- Embedding of `df[name] = df[name].apply(f)`: rewrite one column
cell-wise, leaving the layout unchanged. -/
def mapCol (df : Table) (name : String) (f : Value → Value) : Table :=
  { df with rows := df.rows.map (colFn df.cols name f) }

/-- The error taxonomy of the pipeline (§7 of the specification):
each constructor corresponds to one `raise ValueError` site of
`process_xlsb_file` (`EmptyInputError`, `MissingColumnsError` with the
full list of absent columns, `InvalidNumericDataError`). -/
inductive PipelineError where
  | emptyInput
  | missingColumns (missing : List String)
  | invalidNumericData
deriving DecidableEq, Repr

/-- The three required columns, in the order the source lists them. -/
def requiredColumns : List String :=
  ["ID Материала", "Поступило всего", "Кол-во по заявке"]

/-- Column names used by the pipeline. -/
def idCol : String := "ID Материала"

def recCol : String := "Поступило всего"

def reqCol : String := "Кол-во по заявке"

def discCol : String := "Расхождение заявка-приход"

/-- The material-ID correction `lambda x: str(x).replace('I', '1')`. -/
def idFixCell (v : Value) : Value :=
  .str (replaceAll ['I'] ['1'] (pyStrVal v))

/-- Embedding of `pd.to_numeric(·, errors='coerce')` cell-wise: numbers
and missing pass through, text parses as a float or becomes NaN. -/
def coerceCell (v : Value) : Value :=
  match v with
  | .missing => .missing
  | .num d => .num d
  | .str s =>
    match parseFloat s with
    | some d => .num d
    | none => .missing

/-- `pd.isna` on a cell. -/
def isna : Value → Bool
  | .missing => true
  | _ => false

/-- Steps 3–5 of the pipeline: material-ID correction, normalization of
both quantity columns, then numeric coercion of both. -/
def prepare (df : Table) : Table :=
  let df := mapCol df idCol idFixCell
  let df := mapCol df recCol normalize_numeric
  let df := mapCol df reqCol normalize_numeric
  let df := mapCol df recCol coerceCell
  mapCol df reqCol coerceCell

/-- The composite per-row effect of `prepare` (used to relate output
rows to input rows): the five column rewrites applied in order. -/
def transformRow (cols : List String) (r : List Value) : List Value :=
  colFn cols reqCol coerceCell (colFn cols recCol coerceCell
    (colFn cols reqCol normalize_numeric (colFn cols recCol normalize_numeric
      (colFn cols idCol idFixCell r))))

/-- The integrity gate
`df[['Поступило всего', 'Кол-во по заявке']].isna().any().any()`. -/
def hasInvalidNumeric (df : Table) : Bool :=
  df.rows.any fun r =>
    isna (getCell df.cols r recCol) || isna (getCell df.cols r reqCol)

/-- The pandas comparison `a > b` on two cells: true only when both are
numbers and the first exceeds the second (NaN never compares true). -/
def numGt (a b : Value) : Bool :=
  match a, b with
  | .num x, .num y => Dec.blt y x
  | _, _ => false

/-- The pandas subtraction `a - b` on two cells (NaN-propagating). -/
def numSub (a b : Value) : Value :=
  match a, b with
  | .num x, .num y => .num (x.sub y)
  | _, _ => .missing

/-- The row predicate of the filter
`df['Кол-во по заявке'] > df['Поступило всего']`. -/
def rowPasses (cols : List String) (r : List Value) : Bool :=
  numGt (getCell cols r reqCol) (getCell cols r recCol)

/-- The derived cell
`df['Кол-во по заявке'] - df['Поступило всего']` of one row. -/
def discValue (cols : List String) (r : List Value) : Value :=
  numSub (getCell cols r reqCol) (getCell cols r recCol)

/-- Embedding of
`filtered_df.loc[:, 'Расхождение заявка-приход'] = ...`: pandas writes
the column in place when it exists and appends it at the end
otherwise. -/
def appendDisc (df : Table) : Table :=
  match df.cols.findIdx? (· = discCol) with
  | some i =>
    { df with rows := df.rows.map (fun r => r.set i (discValue df.cols r)) }
  | none =>
    { cols := df.cols ++ [discCol],
      rows := df.rows.map (fun r => r ++ [discValue df.cols r]) }

/-- Embedding of `process_xlsb_file` from `file_processing.py` on the
in-memory table (the XLSX read/write at the boundary is outside the
model; an `Except.error` result means the `to_excel` call is never
reached, so no output artifact is produced).  `df.empty` is true when
either axis has length zero. -/
def process_xlsb_file (df : Table) : Except PipelineError Table :=
  if df.rows = [] ∨ df.cols = [] then .error .emptyInput
  else
    let missing := requiredColumns.filter (fun c => !df.cols.contains c)
    if missing ≠ [] then .error (.missingColumns missing)
    else
      let df2 := prepare df
      if hasInvalidNumeric df2 then .error .invalidNumericData
      else
        let filtered := { df2 with rows := df2.rows.filter (rowPasses df2.cols) }
        .ok (appendDisc filtered)

instance {ε α : Type} [DecidableEq ε] [DecidableEq α] :
    DecidableEq (Except ε α)
  | .error a, .error b =>
    if h : a = b then .isTrue (by rw [h])
    else .isFalse (by intro hc; cases hc; exact h rfl)
  | .error _, .ok _ => .isFalse (by intro hc; cases hc)
  | .ok _, .error _ => .isFalse (by intro hc; cases hc)
  | .ok a, .ok b =>
    if h : a = b then .isTrue (by rw [h])
    else .isFalse (by intro hc; cases hc; exact h rfl)

/-- The table used to witness C5: both quantity columns are absent. -/
def missingColsTable : Table :=
  { cols := [idCol, "Прочее"], rows := [[.str "1".data, .missing]] }

/-- The table used to witness C1: one unparseable received quantity. -/
def badNumericTable : Table :=
  { cols := [idCol, recCol, reqCol],
    rows := [[.str "I123".data, .str "abc".data, .str "100".data]] }

/-- The table used to witness C7: its single row has
requested 80 < received 369, so the filter keeps nothing. -/
def noDiscTable : Table :=
  { cols := [idCol, recCol, reqCol],
    rows := [[.str "694304".data, .num ⟨369, 0⟩, .str "80 М3".data]] }

/-! ### Model of the service layer (`main.py`)

The HTTP boundary is embedded as a state machine over the process-wide
`tasks` registry and the set of scheduled background jobs.  One request
handler execution (or one background-task completion) is one `Step`. -/

/-- The status value stored in the `tasks` registry for one handle. -/
inductive TaskState where
  | pending
  | success
  | failed (e : PipelineError)
deriving DecidableEq, Repr

/-- The mutable service state: the `tasks` dict of `main.py` (latest
binding first), plus the set of created-but-unfinished `process_task`
coroutines. -/
structure ApiState where
  tasks : List (String × TaskState)
  scheduled : List String
deriving DecidableEq, Repr

/-- `task_id in tasks` / `tasks[task_id]["status"]`. -/
def lookupTask (s : ApiState) (id : String) : Option TaskState :=
  (s.tasks.find? (fun p => p.1 = id)).map (·.2)

/-- Embedding of Python `s.endswith(suffix)`. -/
def pyEndsWith (s suffix : String) : Bool :=
  suffix.data.isSuffixOf s.data

/-- Embedding of the `upload_file` handler of `main.py`, as its effect
on the service state.  `parseOk` abstracts whether `pd.read_excel`
succeeds on the saved artifact; `newId` is the generated `uuid4`.
Returns the new state and whether a `process_task` coroutine was
created.  A wrong extension rejects before registering; otherwise the
handle is registered as `"pending"`, and when the parse check fails the
handler raises HTTP 400 without scheduling (or ever removing) the
task. -/
def upload_file (s : ApiState) (filename : String) (parseOk : Bool)
    (newId : String) : ApiState × Bool :=
  if ¬ pyEndsWith filename ".xlsx" then (s, false)
  else
    let s1 : ApiState := ⟨(newId, .pending) :: s.tasks, s.scheduled⟩
    if ¬ parseOk then (s1, false)
    else ({ s1 with scheduled := newId :: s1.scheduled }, true)

/-- `tasks[task_id]["status"] = ...`: overwrite the status of one
registered handle, leaving all other handles untouched. -/
def setTask (tasks : List (String × TaskState)) (id : String)
    (st : TaskState) : List (String × TaskState) :=
  tasks.map (fun p => if p.1 = id then (id, st) else p)

/-- Embedding of the `process_task` coroutine body: on completion it
writes `"success"` or `"failed"` (with the pipeline error) for its own
handle and is consumed from the scheduled set. -/
def finish_task (s : ApiState) (id : String)
    (result : Except PipelineError Table) : ApiState :=
  ⟨setTask s.tasks id
      (match result with
       | .ok _ => .success
       | .error e => .failed e),
    s.scheduled.erase id⟩

/-- Embedding of the `get_status` endpoint: `none` is the 404 branch,
otherwise the stored status is reported. -/
def get_status (s : ApiState) (id : String) : Option TaskState :=
  lookupTask s id

/-- One observable transition of the service: an `upload_file` request
(with a fresh UUID) or the completion of a scheduled `process_task`.
`get_status` / `get_result` requests do not change the state, and no
code path ever deletes a registry entry. -/
inductive Step : ApiState → ApiState → Prop where
  | upload (s : ApiState) (filename : String) (parseOk : Bool)
      (newId : String) (hfresh : lookupTask s newId = none) :
      Step s (upload_file s filename parseOk newId).1
  | finish (s : ApiState) (id : String)
      (result : Except PipelineError Table) (hid : id ∈ s.scheduled) :
      Step s (finish_task s id result)

/-- The three-row example table of the specification's §8 filtering
property: (requested, received) pairs (358, 506), (80, 369), (934, 723)
with unit-suffixed requested quantities, as in the repository's tests. -/
def exampleTable : Table :=
  { cols := [idCol, recCol, reqCol],
    rows := [[.str "I46872".data, .num ⟨506, 0⟩, .str "358 М3".data],
             [.str "694304".data, .num ⟨369, 0⟩, .str "80 М3".data],
             [.str "727698".data, .num ⟨723, 0⟩, .str "934 КГ".data]] }

/-- The output table the specification prescribes for `exampleTable`:
only the third row (934 > 723), with discrepancy 211. -/
def exampleOut : Table :=
  { cols := [idCol, recCol, reqCol, discCol],
    rows := [[.str "727698".data, .num ⟨723, 0⟩, .num ⟨934, 0⟩,
              .num ⟨211, 0⟩]] }

/-! ### Concrete evaluations of the embedded source -/

example : parseFloat "80".data = some ⟨80, 0⟩ := by decide

example : parseFloat "80.0".data = some ⟨800, 1⟩ := by decide

example : parseFloat " 358 ".data = some ⟨358, 0⟩ := by decide

example : parseFloat "invalid".data = none := by decide

example : parseFloat "80 M3".data = none := by decide

example : parseFloat "2.5".data = some ⟨25, 1⟩ := by decide

example : parseFloat "-1e2".data = some ⟨-100, 0⟩ := by decide

example : parseFloat "1e-2".data = some ⟨1, 2⟩ := by decide

example : parseFloat "".data = none := by decide

example : parseFloat ".".data = none := by decide

example : parseFloat "3.".data = some ⟨3, 0⟩ := by decide

example : parseFloat ".5".data = some ⟨5, 1⟩ := by decide

example : parseFloat "1.2.3".data = none := by decide

example : renderDec ⟨800, 1⟩ = "80.0".data := by decide

example : renderDec ⟨80, 0⟩ = "80".data := by decide

example : renderDec ⟨5, 3⟩ = "0.005".data := by decide

example : renderDec ⟨-2115, 1⟩ = "-211.5".data := by decide

example : units =
    ["М3".data, "КГ".data, "Т".data, "шт".data, "кг".data, "т".data,
      "м3".data] := by decide

example : normalize_numeric (.str "80 М3".data) = .num ⟨80, 0⟩ := by decide

example : normalize_numeric (.str "934 КГ".data) = .num ⟨934, 0⟩ := by decide

example : normalize_numeric (.str "80,0 М3".data) = .num ⟨800, 1⟩ := by decide

example : normalize_numeric (.str "358".data) = .num ⟨358, 0⟩ := by decide

example : normalize_numeric (.str "invalid".data) = .str "invalid".data := by
  decide

example : normalize_numeric (.str "80 M3".data) = .str "80 M3".data := by
  decide

example : normalize_numeric .missing = .missing := by decide

example : normalize_numeric (.num ⟨800, 1⟩) = .num ⟨800, 1⟩ := by decide

example : normalize_numeric (.str "1,2,3".data) = .str "1.2.3".data := by
  decide

example : process_xlsb_file exampleTable = .ok exampleOut := by decide

/-! ### Lemmas about the string primitives -/

theorem replaceAllAux_congr (pat rep : List Char) :
    ∀ fuel₁ fuel₂ l, l.length ≤ fuel₁ → l.length ≤ fuel₂ →
      replaceAllAux pat rep fuel₁ l = replaceAllAux pat rep fuel₂ l := by
  intro fuel₁
  induction fuel₁ with
  | zero =>
    intro fuel₂ l h₁ _
    have hl : l = [] := List.eq_nil_of_length_eq_zero (Nat.le_zero.mp h₁)
    subst hl
    cases fuel₂ <;> rfl
  | succ f ih =>
    intro fuel₂ l h₁ h₂
    cases l with
    | nil => cases fuel₂ <;> rfl
    | cons c cs =>
      cases fuel₂ with
      | zero => simp at h₂
      | succ f₂ =>
        simp only [List.length_cons] at h₁ h₂
        simp only [replaceAllAux]
        by_cases hc : pat ≠ [] ∧ pat.isPrefixOf (c :: cs) = true
        · rw [if_pos hc, if_pos hc]
          congr 1
          have hp : 1 ≤ pat.length := List.length_pos.mpr hc.1
          apply ih
          · simp only [List.length_drop, List.length_cons]; omega
          · simp only [List.length_drop, List.length_cons]; omega
        · rw [if_neg hc, if_neg hc]
          congr 1
          exact ih f₂ cs (by omega) (by omega)

theorem replaceAll_nil (pat rep : List Char) : replaceAll pat rep [] = [] := rfl

theorem replaceAll_cons_pos (pat rep : List Char) (c : Char) (cs : List Char)
    (h : pat ≠ []) (hp : pat.isPrefixOf (c :: cs) = true) :
    replaceAll pat rep (c :: cs) =
      rep ++ replaceAll pat rep ((c :: cs).drop pat.length) := by
  have hlen : 1 ≤ pat.length := List.length_pos.mpr h
  show replaceAllAux pat rep (c :: cs).length (c :: cs) = _
  simp only [List.length_cons, replaceAllAux]
  rw [if_pos ⟨h, hp⟩]
  congr 1
  apply replaceAllAux_congr
  · simp only [List.length_drop, List.length_cons]; omega
  · exact le_rfl

theorem replaceAll_cons_neg (pat rep : List Char) (c : Char) (cs : List Char)
    (h : ¬(pat ≠ [] ∧ pat.isPrefixOf (c :: cs) = true)) :
    replaceAll pat rep (c :: cs) = c :: replaceAll pat rep cs := by
  show replaceAllAux pat rep (c :: cs).length (c :: cs) = _
  simp only [List.length_cons, replaceAllAux]
  rw [if_neg h]
  rfl

theorem replaceAll_append_not_mem (p : Char) (ps rep l₁ l₂ : List Char)
    (h : p ∉ l₁) :
    replaceAll (p :: ps) rep (l₁ ++ l₂) = l₁ ++ replaceAll (p :: ps) rep l₂ := by
  induction l₁ with
  | nil => simp
  | cons c cs ih =>
    have hc : (p == c) = false := by
      simp only [beq_eq_false_iff_ne, ne_eq]
      intro hpc
      exact h (hpc ▸ List.mem_cons_self c cs)
    have hng : ¬((p :: ps) ≠ [] ∧ (p :: ps).isPrefixOf (c :: (cs ++ l₂)) = true) := by
      intro hcontra
      have h2 := hcontra.2
      simp only [List.isPrefixOf, hc, Bool.false_and] at h2
      exact Bool.false_ne_true h2
    rw [List.cons_append, replaceAll_cons_neg _ _ _ _ hng,
      ih (fun hm => h (List.mem_cons_of_mem _ hm))]
    rfl

theorem replaceAll_prefix (pat rep rest : List Char) (h : pat ≠ []) :
    replaceAll pat rep (pat ++ rest) = rep ++ replaceAll pat rep rest := by
  obtain ⟨p, ps, rfl⟩ := List.exists_cons_of_ne_nil h
  rw [List.cons_append, replaceAll_cons_pos _ _ _ _ h
    (List.isPrefixOf_iff_prefix.mpr (by rw [← List.cons_append]; exact List.prefix_append _ _))]
  congr 1
  rw [← List.cons_append, List.drop_left]

theorem replaceAll_not_mem (p : Char) (ps rep l : List Char) (h : p ∉ l) :
    replaceAll (p :: ps) rep l = l := by
  have := replaceAll_append_not_mem p ps rep l [] h
  simpa [replaceAll_nil] using this

theorem replaceAll_single (a b : Char) (l : List Char) :
    replaceAll [a] [b] l = l.map (fun c => if c = a then b else c) := by
  induction l with
  | nil => rfl
  | cons c cs ih =>
    by_cases hca : c = a
    · subst hca
      rw [replaceAll_cons_pos _ _ _ _ (by simp)
        (List.isPrefixOf_iff_prefix.mpr ⟨cs, rfl⟩)]
      simp [ih]
    · have hng : ¬(([a] : List Char) ≠ [] ∧ ([a] : List Char).isPrefixOf (c :: cs) = true) := by
        intro hcontra
        have h2 := hcontra.2
        have hac : (a == c) = false := by
          simp only [beq_eq_false_iff_ne, ne_eq]
          exact fun hac => hca hac.symm
        simp only [List.isPrefixOf, hac, Bool.false_and] at h2
        exact Bool.false_ne_true h2
      rw [replaceAll_cons_neg _ _ _ _ hng]
      simp [hca, ih]

theorem dropWhile_eq_self_of (p : Char → Bool) (l : List Char)
    (h : ∀ c ∈ l, p c = false) : l.dropWhile p = l := by
  cases l with
  | nil => rfl
  | cons c cs =>
    rw [List.dropWhile_cons_of_neg]
    simp [h c (List.mem_cons_self c cs)]

theorem pyStrip_eq_self (l : List Char)
    (h : ∀ c ∈ l, c.isWhitespace = false) : pyStrip l = l := by
  unfold pyStrip
  rw [dropWhile_eq_self_of _ _ h,
    dropWhile_eq_self_of _ _ (fun c hc => h c (List.mem_reverse.mp hc)),
    List.reverse_reverse]

/-- `pyStrip` keeps a list whose first and last characters are not
whitespace (interior whitespace is untouched by `strip`). -/
theorem pyStrip_no_ws_ends (l : List Char)
    (h1 : ∀ c, l.head? = some c → c.isWhitespace = false)
    (h2 : ∀ c, l.getLast? = some c → c.isWhitespace = false) :
    pyStrip l = l := by
  cases l with
  | nil => rfl
  | cons c cs =>
    unfold pyStrip
    rw [List.dropWhile_cons_of_neg (by simp [h1 c rfl])]
    cases hrev : (c :: cs).reverse with
    | nil => exact absurd hrev (by simp)
    | cons d ds =>
      have hd : (c :: cs).getLast? = some d := by
        rw [← List.head?_reverse, hrev]; rfl
      rw [List.dropWhile_cons_of_neg (by simp [h2 d hd]), ← hrev,
        List.reverse_reverse]

theorem pyStrip_append_space (l : List Char)
    (h : ∀ c ∈ l, c.isWhitespace = false) : pyStrip (l ++ [' ']) = l := by
  cases l with
  | nil => decide
  | cons c cs =>
    unfold pyStrip
    rw [List.cons_append,
      List.dropWhile_cons_of_neg (by simp [h c (List.mem_cons_self c cs)]),
      ← List.cons_append, List.reverse_append]
    show List.reverse (List.dropWhile _ (' ' :: _)) = _
    rw [List.dropWhile_cons_of_pos (by decide)]
    show List.reverse (List.dropWhile _ (c :: cs).reverse) = _
    rw [dropWhile_eq_self_of _ _ (fun x hx => h x (List.mem_reverse.mp hx)),
      List.reverse_reverse]

theorem isDigit_not_ws (c : Char) (h : c.isDigit = true) :
    c.isWhitespace = false := by
  by_contra hw
  rw [Bool.not_eq_false] at hw
  simp only [Char.isWhitespace, Bool.or_eq_true, decide_eq_true_iff] at hw
  rcases hw with ((rfl | rfl) | rfl) | rfl <;> simp [Char.isDigit] at h

theorem digitChar_isDigit (n : ℕ) (h : n < 10) :
    (digitChar n).isDigit = true := by
  interval_cases n <;> decide

theorem natDigitsAux_digits :
    ∀ fuel n c, c ∈ natDigitsAux fuel n → c.isDigit = true := by
  intro fuel
  induction fuel with
  | zero => intro n c hc; simp [natDigitsAux] at hc
  | succ f ih =>
    intro n c hc
    rw [natDigitsAux] at hc
    by_cases h10 : n < 10
    · rw [if_pos h10] at hc
      simp only [List.mem_singleton] at hc
      exact hc ▸ digitChar_isDigit n h10
    · rw [if_neg h10] at hc
      rcases List.mem_append.mp hc with hm | hm
      · exact ih _ c hm
      · simp only [List.mem_singleton] at hm
        exact hm ▸ digitChar_isDigit _ (Nat.mod_lt n (by omega))

theorem natDigits_digits (n : ℕ) (c : Char) (hc : c ∈ natDigits n) :
    c.isDigit = true := natDigitsAux_digits _ _ _ hc

/-! ### Lemmas about scaled decimals -/

theorem Dec.blt_iff (a b : Dec) : Dec.blt a b = true ↔ a.toRat < b.toRat := by
  unfold Dec.blt Dec.toRat
  rw [decide_eq_true_iff,
    div_lt_div_iff₀ (by positivity) (by positivity)]
  constructor <;> intro h <;> exact_mod_cast h

theorem Dec.toRat_sub (a b : Dec) : (a.sub b).toRat = a.toRat - b.toRat := by
  unfold Dec.sub Dec.toRat
  push_cast
  field_simp
  ring

theorem Dec.sub_pos_of_blt (a b : Dec) (h : Dec.blt b a = true) :
    0 < (a.sub b).toRat := by
  rw [Dec.toRat_sub]
  have := (Dec.blt_iff b a).mp h
  linarith

/-! ### The cleaning phase on a number-with-unit value -/

theorem charset_dotted (numPart : List Char)
    (h : ∀ c ∈ numPart, c.isDigit = true ∨ c = ',' ∨ c = '.') :
    ∀ c ∈ replaceAll [','] ['.'] numPart, c.isDigit = true ∨ c = '.' := by
  rw [replaceAll_single]
  intro c hc
  obtain ⟨c', hc', rfl⟩ := List.mem_map.mp hc
  rcases h c' hc' with h' | h' | h'
  · have hne : c' ≠ ',' := by
      intro e
      rw [e] at h'
      exact absurd h' (by decide)
    rw [if_neg hne]
    exact Or.inl h'
  · subst h'
    simp
  · subst h'
    rw [if_neg (by decide)]
    exact Or.inr rfl

theorem comma_dot_append (numPart u : List Char) (hu : ',' ∉ u) :
    replaceAll [','] ['.'] (numPart ++ ' ' :: u) =
      replaceAll [','] ['.'] numPart ++ ' ' :: u := by
  rw [replaceAll_single, replaceAll_single, List.map_append, List.map_cons]
  congr 1
  congr 1
  calc u.map (fun c => if c = ',' then '.' else c)
      = u.map id :=
        List.map_congr_left (fun x hx =>
          if_neg (fun e => hu (by rw [← e]; exact hx)))
    _ = u := List.map_id u

theorem not_mem_of_charset (p : Char) (dotted : List Char)
    (hchars : ∀ c ∈ dotted, c.isDigit = true ∨ c = '.')
    (hp1 : p.isDigit = false) (hp2 : p ≠ '.') : p ∉ dotted := by
  intro hm
  rcases hchars p hm with h | h
  · rw [hp1] at h
    exact Bool.false_ne_true h
  · exact hp2 h

theorem notmem_val (p : Char) (dotted u : List Char)
    (hchars : ∀ c ∈ dotted, c.isDigit = true ∨ c = '.')
    (hp1 : p.isDigit = false) (hp2 : p ≠ '.') (hp3 : p ≠ ' ') (hp4 : p ∉ u) :
    p ∉ dotted ++ ' ' :: u := by
  intro hmem
  rcases List.mem_append.mp hmem with h | h
  · exact not_mem_of_charset p dotted hchars hp1 hp2 h
  · rcases List.mem_cons.mp h with h' | h'
    · exact hp3 h'
    · exact hp4 h'

/-- A unit-strip iteration that finds no occurrence leaves the value
unchanged. -/
theorem step_noop (p : Char) (ps val : List Char)
    (hmem : p ∉ val) (hstrip : pyStrip val = val) :
    pyStrip (replaceAll (p :: ps) [] val) = val := by
  rw [replaceAll_not_mem _ _ _ _ hmem, hstrip]

/-- The unit-strip iteration of the matching token removes the trailing
unit together with the separating space. -/
theorem step_vanish (p : Char) (ps dotted : List Char)
    (hpd : p ∉ dotted) (hps : p ≠ ' ')
    (hnws : ∀ c ∈ dotted, c.isWhitespace = false) :
    pyStrip (replaceAll (p :: ps) [] (dotted ++ ' ' :: (p :: ps))) = dotted := by
  have hsplit : dotted ++ ' ' :: (p :: ps) =
      (dotted ++ [' ']) ++ ((p :: ps) ++ []) := by simp
  have hnm : p ∉ dotted ++ [' '] := by
    intro hm
    rcases List.mem_append.mp hm with h | h
    · exact hpd h
    · simp only [List.mem_singleton] at h
      exact hps h
  rw [hsplit, replaceAll_append_not_mem _ _ _ _ _ hnm,
    replaceAll_prefix _ _ _ (by simp), replaceAll_nil]
  simp only [List.append_nil, List.nil_append]
  exact pyStrip_append_space _ hnws

/-- The whole number-with-unit value survives a `strip`: its first
character is a digit or a dot and its last is the unit's final
character. -/
theorem strip_val (dotted u : List Char) (hd : dotted ≠ [])
    (hchars : ∀ c ∈ dotted, c.isDigit = true ∨ c = '.')
    (e : Char) (he : (' ' :: u).getLast? = some e)
    (hwe : e.isWhitespace = false) :
    pyStrip (dotted ++ ' ' :: u) = dotted ++ ' ' :: u := by
  apply pyStrip_no_ws_ends
  · intro c hc
    obtain ⟨c0, cs0, rfl⟩ := List.exists_cons_of_ne_nil hd
    rw [List.cons_append, List.head?_cons] at hc
    obtain rfl := Option.some.inj hc
    rcases hchars c0 (List.mem_cons_self _ _) with h | h
    · exact isDigit_not_ws c0 h
    · subst h
      decide
  · intro c hc
    rw [List.getLast?_append_of_ne_nil _ (by simp), he] at hc
    obtain rfl := Option.some.inj hc
    exact hwe

/-- The cleaning phase on a decimal text followed by one unit token of
the source's list: commas become dots and the unit (with the separating
space) is removed, the digits surviving every iteration untouched. -/
theorem cleanText_unit (numPart u : List Char) (hu : u ∈ units)
    (hchar : ∀ c ∈ numPart, c.isDigit = true ∨ c = ',' ∨ c = '.')
    (hdne : replaceAll [','] ['.'] numPart ≠ []) :
    cleanText (numPart ++ ' ' :: u) = replaceAll [','] ['.'] numPart := by
  have hchD := charset_dotted numPart hchar
  have hnws : ∀ c ∈ replaceAll [','] ['.'] numPart, c.isWhitespace = false := by
    intro c hc
    rcases hchD c hc with h | h
    · exact isDigit_not_ws c h
    · subst h
      decide
  have hstripD := pyStrip_eq_self _ hnws
  set dotted := replaceAll [','] ['.'] numPart with hdot
  simp only [units, List.mem_cons, List.not_mem_nil, or_false] at hu
  unfold cleanText
  rcases hu with rfl | rfl | rfl | rfl | rfl | rfl | rfl
  · rw [comma_dot_append _ _ (by decide), ← hdot]
    simp only [units, List.foldl_cons, List.foldl_nil]
    rw [step_vanish 'М' ['3'] dotted
        (not_mem_of_charset _ _ hchD (by decide) (by decide)) (by decide) hnws,
      step_noop 'К' ['Г'] _ (not_mem_of_charset _ _ hchD (by decide) (by decide)) hstripD,
      step_noop 'Т' [] _ (not_mem_of_charset _ _ hchD (by decide) (by decide)) hstripD,
      step_noop 'ш' ['т'] _ (not_mem_of_charset _ _ hchD (by decide) (by decide)) hstripD,
      step_noop 'к' ['г'] _ (not_mem_of_charset _ _ hchD (by decide) (by decide)) hstripD,
      step_noop 'т' [] _ (not_mem_of_charset _ _ hchD (by decide) (by decide)) hstripD,
      step_noop 'м' ['3'] _ (not_mem_of_charset _ _ hchD (by decide) (by decide)) hstripD]
  · have hV := strip_val dotted ['К', 'Г'] hdne hchD 'Г' (by decide) (by decide)
    rw [comma_dot_append _ _ (by decide), ← hdot]
    simp only [units, List.foldl_cons, List.foldl_nil]
    rw [step_noop 'М' ['3'] _
        (notmem_val _ _ _ hchD (by decide) (by decide) (by decide) (by decide)) hV,
      step_vanish 'К' ['Г'] dotted
        (not_mem_of_charset _ _ hchD (by decide) (by decide)) (by decide) hnws,
      step_noop 'Т' [] _ (not_mem_of_charset _ _ hchD (by decide) (by decide)) hstripD,
      step_noop 'ш' ['т'] _ (not_mem_of_charset _ _ hchD (by decide) (by decide)) hstripD,
      step_noop 'к' ['г'] _ (not_mem_of_charset _ _ hchD (by decide) (by decide)) hstripD,
      step_noop 'т' [] _ (not_mem_of_charset _ _ hchD (by decide) (by decide)) hstripD,
      step_noop 'м' ['3'] _ (not_mem_of_charset _ _ hchD (by decide) (by decide)) hstripD]
  · have hV := strip_val dotted ['Т'] hdne hchD 'Т' (by decide) (by decide)
    rw [comma_dot_append _ _ (by decide), ← hdot]
    simp only [units, List.foldl_cons, List.foldl_nil]
    rw [step_noop 'М' ['3'] _
        (notmem_val _ _ _ hchD (by decide) (by decide) (by decide) (by decide)) hV,
      step_noop 'К' ['Г'] _
        (notmem_val _ _ _ hchD (by decide) (by decide) (by decide) (by decide)) hV,
      step_vanish 'Т' [] dotted
        (not_mem_of_charset _ _ hchD (by decide) (by decide)) (by decide) hnws,
      step_noop 'ш' ['т'] _ (not_mem_of_charset _ _ hchD (by decide) (by decide)) hstripD,
      step_noop 'к' ['г'] _ (not_mem_of_charset _ _ hchD (by decide) (by decide)) hstripD,
      step_noop 'т' [] _ (not_mem_of_charset _ _ hchD (by decide) (by decide)) hstripD,
      step_noop 'м' ['3'] _ (not_mem_of_charset _ _ hchD (by decide) (by decide)) hstripD]
  · have hV := strip_val dotted ['ш', 'т'] hdne hchD 'т' (by decide) (by decide)
    rw [comma_dot_append _ _ (by decide), ← hdot]
    simp only [units, List.foldl_cons, List.foldl_nil]
    rw [step_noop 'М' ['3'] _
        (notmem_val _ _ _ hchD (by decide) (by decide) (by decide) (by decide)) hV,
      step_noop 'К' ['Г'] _
        (notmem_val _ _ _ hchD (by decide) (by decide) (by decide) (by decide)) hV,
      step_noop 'Т' [] _
        (notmem_val _ _ _ hchD (by decide) (by decide) (by decide) (by decide)) hV,
      step_vanish 'ш' ['т'] dotted
        (not_mem_of_charset _ _ hchD (by decide) (by decide)) (by decide) hnws,
      step_noop 'к' ['г'] _ (not_mem_of_charset _ _ hchD (by decide) (by decide)) hstripD,
      step_noop 'т' [] _ (not_mem_of_charset _ _ hchD (by decide) (by decide)) hstripD,
      step_noop 'м' ['3'] _ (not_mem_of_charset _ _ hchD (by decide) (by decide)) hstripD]
  · have hV := strip_val dotted ['к', 'г'] hdne hchD 'г' (by decide) (by decide)
    rw [comma_dot_append _ _ (by decide), ← hdot]
    simp only [units, List.foldl_cons, List.foldl_nil]
    rw [step_noop 'М' ['3'] _
        (notmem_val _ _ _ hchD (by decide) (by decide) (by decide) (by decide)) hV,
      step_noop 'К' ['Г'] _
        (notmem_val _ _ _ hchD (by decide) (by decide) (by decide) (by decide)) hV,
      step_noop 'Т' [] _
        (notmem_val _ _ _ hchD (by decide) (by decide) (by decide) (by decide)) hV,
      step_noop 'ш' ['т'] _
        (notmem_val _ _ _ hchD (by decide) (by decide) (by decide) (by decide)) hV,
      step_vanish 'к' ['г'] dotted
        (not_mem_of_charset _ _ hchD (by decide) (by decide)) (by decide) hnws,
      step_noop 'т' [] _ (not_mem_of_charset _ _ hchD (by decide) (by decide)) hstripD,
      step_noop 'м' ['3'] _ (not_mem_of_charset _ _ hchD (by decide) (by decide)) hstripD]
  · have hV := strip_val dotted ['т'] hdne hchD 'т' (by decide) (by decide)
    rw [comma_dot_append _ _ (by decide), ← hdot]
    simp only [units, List.foldl_cons, List.foldl_nil]
    rw [step_noop 'М' ['3'] _
        (notmem_val _ _ _ hchD (by decide) (by decide) (by decide) (by decide)) hV,
      step_noop 'К' ['Г'] _
        (notmem_val _ _ _ hchD (by decide) (by decide) (by decide) (by decide)) hV,
      step_noop 'Т' [] _
        (notmem_val _ _ _ hchD (by decide) (by decide) (by decide) (by decide)) hV,
      step_noop 'ш' ['т'] _
        (notmem_val _ _ _ hchD (by decide) (by decide) (by decide) (by decide)) hV,
      step_noop 'к' ['г'] _
        (notmem_val _ _ _ hchD (by decide) (by decide) (by decide) (by decide)) hV,
      step_vanish 'т' [] dotted
        (not_mem_of_charset _ _ hchD (by decide) (by decide)) (by decide) hnws,
      step_noop 'м' ['3'] _ (not_mem_of_charset _ _ hchD (by decide) (by decide)) hstripD]
  · have hV := strip_val dotted ['м', '3'] hdne hchD '3' (by decide) (by decide)
    rw [comma_dot_append _ _ (by decide), ← hdot]
    simp only [units, List.foldl_cons, List.foldl_nil]
    rw [step_noop 'М' ['3'] _
        (notmem_val _ _ _ hchD (by decide) (by decide) (by decide) (by decide)) hV,
      step_noop 'К' ['Г'] _
        (notmem_val _ _ _ hchD (by decide) (by decide) (by decide) (by decide)) hV,
      step_noop 'Т' [] _
        (notmem_val _ _ _ hchD (by decide) (by decide) (by decide) (by decide)) hV,
      step_noop 'ш' ['т'] _
        (notmem_val _ _ _ hchD (by decide) (by decide) (by decide) (by decide)) hV,
      step_noop 'к' ['г'] _
        (notmem_val _ _ _ hchD (by decide) (by decide) (by decide) (by decide)) hV,
      step_noop 'т' [] _
        (notmem_val _ _ _ hchD (by decide) (by decide) (by decide) (by decide)) hV,
      step_vanish 'м' ['3'] dotted
        (not_mem_of_charset _ _ hchD (by decide) (by decide)) (by decide) hnws]

/-! ### Structure of the pipeline -/

theorem prepare_cols (df : Table) : (prepare df).cols = df.cols := rfl

theorem prepare_rows (df : Table) :
    (prepare df).rows = df.rows.map (transformRow df.cols) := by
  simp only [prepare, mapCol, List.map_map]
  rfl

/-! ### Claim theorems -/

/-- C3 (corrected: the unit set of the source is Cyrillic-only).  For
every decimal text (digits with comma or dot separators) followed by a
space and one token of the source's unit list, `normalize_numeric`
yields exactly the float obtained by parsing the text with the commas
replaced by dots; moreover units are stripped as substrings (no
surrounding whitespace needed) and repeated unit tokens are all
stripped. -/
theorem normalize_unit_suffix :
    (∀ (numPart u : List Char), u ∈ units →
      (∀ c ∈ numPart, c.isDigit = true ∨ c = ',' ∨ c = '.') →
      ∀ d : Dec, parseFloat (replaceAll [','] ['.'] numPart) = some d →
        normalize_numeric (.str (numPart ++ ' ' :: u)) = .num d) ∧
    normalize_numeric (.str "80 М3".data) = .num ⟨80, 0⟩ ∧
    normalize_numeric (.str "80,0 М3".data) = .num ⟨800, 1⟩ ∧
    normalize_numeric (.str "80М3".data) = .num ⟨80, 0⟩ ∧
    normalize_numeric (.str "80 М3 М3".data) = .num ⟨80, 0⟩ ∧
    normalize_numeric (.str "80,5 М3 КГ".data) = .num ⟨805, 1⟩ := by
  refine ⟨?_, by decide, by decide, by decide, by decide, by decide⟩
  intro numPart u hu hchar d hparse
  have hdne : replaceAll [','] ['.'] numPart ≠ [] := by
    intro h
    rw [h] at hparse
    exact Option.noConfusion (show (none : Option Dec) = some d from hparse)
  have hkey := cleanText_unit numPart u hu hchar hdne
  simp only [normalize_numeric, pyStrVal]
  rw [hkey, hparse]

/-- C3, witness: `"93,4 КГ"` (Cyrillic unit) normalizes to 93.4. -/
theorem normalize_unit_suffix_witness :
    normalize_numeric (.str ("93,4".data ++ ' ' :: ['К', 'Г'])) =
      .num ⟨934, 1⟩ :=
  normalize_unit_suffix.1 "93,4".data ['К', 'Г'] (by decide) (by decide)
    ⟨934, 1⟩ (by decide)

/-- C3, the counterexample to the claim as stated: the Latin-alphabet
spelling `M3` is not in the source's unit list, so `"80 M3"` (Latin
`M`) is not normalized to the float 80.0 — it comes back as unchanged
text. -/
theorem latin_unit_not_stripped :
    normalize_numeric (.str "80 M3".data) = .str "80 M3".data ∧
    normalize_numeric (.str "80 M3".data) ≠ .num ⟨80, 0⟩ ∧
    normalize_numeric (.str "80 M3".data) ≠ .num ⟨800, 1⟩ := by decide

/-- C4 (corrected): when the cleaned text fails to parse, the source
returns the rebound `value` variable, i.e. the cleaned (str-converted,
comma-replaced, unit-stripped) text rather than the pre-cleaning
original; `normalize_numeric("invalid")` still returns `"invalid"`
unchanged because cleaning happens to be the identity on it. -/
theorem normalize_unparsed_cleaned :
    (∀ v : Value, v ≠ .missing →
      parseFloat (cleanText (pyStrVal v)) = none →
      normalize_numeric v = .str (cleanText (pyStrVal v))) ∧
    normalize_numeric (.str "invalid".data) = .str "invalid".data ∧
    cleanText "invalid".data = "invalid".data := by
  refine ⟨?_, by decide, by decide⟩
  intro v hv hfail
  cases v with
  | missing => exact absurd rfl hv
  | str s =>
    simp only [pyStrVal] at hfail
    simp only [normalize_numeric, pyStrVal, hfail]
  | num d =>
    simp only [pyStrVal] at hfail
    simp only [normalize_numeric, pyStrVal, hfail]

/-- C4, witness: an unparseable value with a comma comes back cleaned. -/
theorem normalize_unparsed_cleaned_witness :
    normalize_numeric (.str "5,6x".data) =
      .str (cleanText (pyStrVal (.str "5,6x".data))) :=
  normalize_unparsed_cleaned.1 (.str "5,6x".data) (by decide) (by decide)

/-- C4, the counterexample to the claim as stated: `"1,2,3"` fails to
parse after cleaning, and the returned value is the comma-replaced
intermediate `"1.2.3"`, not the original `"1,2,3"`. -/
theorem normalize_unparsed_counterexample :
    normalize_numeric (.str "1,2,3".data) = .str "1.2.3".data ∧
    "1.2.3".data ≠ "1,2,3".data := by decide

/-- C6: the material-ID correction maps every character of the cell's
text to itself except `I`, which becomes `1` — every occurrence is
replaced and no other character changes; in particular
`"I46872" ↦ "146872"`. -/
theorem material_id_replace :
    (∀ s : List Char, idFixCell (.str s) =
      .str (s.map (fun c => if c = 'I' then '1' else c))) ∧
    idFixCell (.str "I46872".data) = .str "146872".data := by
  constructor
  · intro s
    simp only [idFixCell, pyStrVal]
    rw [replaceAll_single]
  · decide

/-- C8: the pipeline is a pure function of the input table — two runs
on the same unchanged input produce the same result, so repeated
invocations yield identical output artifacts. -/
theorem pipeline_deterministic (df : Table)
    (o₁ o₂ : Except PipelineError Table)
    (h₁ : process_xlsb_file df = o₁) (h₂ : process_xlsb_file df = o₂) :
    o₁ = o₂ := h₁ ▸ h₂

/-- C8, witness: both runs on the example table give the same output. -/
theorem pipeline_deterministic_witness :
    (Except.ok exampleOut : Except PipelineError Table) = .ok exampleOut :=
  pipeline_deterministic exampleTable _ _ (by decide) (by decide)

/-- C9: the material-ID correction stringifies the cell before the
substitution — a missing cell becomes the literal text `"nan"` and a
numeric (integer) identifier becomes its decimal text. -/
theorem material_id_stringifies :
    idFixCell .missing = .str "nan".data ∧
    (∀ n : ℕ, idFixCell (.num ⟨(n : ℤ), 0⟩) = .str (natDigits n)) ∧
    idFixCell (.num ⟨694304, 0⟩) = .str "694304".data := by
  refine ⟨by decide, ?_, by decide⟩
  intro n
  have h1 : ¬((n : ℤ) < 0) := Int.not_lt.mpr (Int.natCast_nonneg n)
  have hrender : pyStrVal (.num ⟨(n : ℤ), 0⟩) = natDigits n := by
    simp only [pyStrVal]
    simp [renderDec, h1, Int.natAbs_ofNat]
  simp only [idFixCell, hrender]
  exact congrArg Value.str (replaceAll_not_mem _ _ _ _
    (fun hm => absurd (natDigits_digits n 'I' hm) (by decide)))

/-- C5: a non-empty table with required columns absent fails with the
`MissingColumnsError` carrying exactly the full list of absent required
columns — every required column that is missing, not just the first. -/
theorem missing_columns_abort (df : Table)
    (hne : ¬(df.rows = [] ∨ df.cols = []))
    (hmiss : requiredColumns.filter (fun c => !df.cols.contains c) ≠ []) :
    process_xlsb_file df =
      .error (.missingColumns
        (requiredColumns.filter (fun c => !df.cols.contains c))) ∧
    (∀ c, c ∈ requiredColumns.filter (fun c => !df.cols.contains c) ↔
      (c ∈ requiredColumns ∧ c ∉ df.cols)) := by
  constructor
  · simp only [process_xlsb_file]
    rw [if_neg hne, if_pos hmiss]
  · intro c
    rw [List.mem_filter]
    simp

/-- C5, witness: the error names both absent columns. -/
theorem missing_columns_abort_witness :
    process_xlsb_file missingColsTable =
      .error (.missingColumns [recCol, reqCol]) := by
  have h := (missing_columns_abort missingColsTable (by decide) (by decide)).1
  rw [show requiredColumns.filter
      (fun c => !missingColsTable.cols.contains c) = [recCol, reqCol] from
    by decide] at h
  exact h

/-- C1: on a table that passes the empty and schema checks, a single
NaN cell in either required numeric column after normalization and
coercion makes the whole run fail with `InvalidNumericDataError` — and
since the pipeline returns an error, the output serialization is never
reached (no output artifact). -/
theorem invalid_numeric_aborts (df : Table)
    (hne : ¬(df.rows = [] ∨ df.cols = []))
    (hcols : requiredColumns.filter (fun c => !df.cols.contains c) = [])
    (hbad : ∃ r ∈ (prepare df).rows,
      isna (getCell df.cols r recCol) = true ∨
      isna (getCell df.cols r reqCol) = true) :
    process_xlsb_file df = .error .invalidNumericData := by
  have hnan : hasInvalidNumeric (prepare df) = true := by
    unfold hasInvalidNumeric
    rw [List.any_eq_true]
    obtain ⟨r, hr, hor⟩ := hbad
    refine ⟨r, hr, ?_⟩
    rw [prepare_cols]
    rcases hor with h | h
    · rw [h]
      rfl
    · rw [h]
      exact Bool.or_true _
  simp only [process_xlsb_file]
  rw [if_neg hne, if_neg (fun h => h hcols), if_pos hnan]

/-- C1, witness: the single bad cell aborts the run. -/
theorem invalid_numeric_aborts_witness :
    process_xlsb_file badNumericTable = .error .invalidNumericData :=
  invalid_numeric_aborts badNumericTable (by decide) (by decide) (by decide)

/-- C7: a valid table on which no row satisfies the filter succeeds
with a zero-row output that still carries the appended discrepancy
column. -/
theorem empty_filter_success (df : Table)
    (hne : ¬(df.rows = [] ∨ df.cols = []))
    (hcols : requiredColumns.filter (fun c => !df.cols.contains c) = [])
    (hnan : hasInvalidNumeric (prepare df) = false)
    (hdisc : discCol ∉ df.cols)
    (hnof : ∀ r ∈ (prepare df).rows, rowPasses df.cols r = false) :
    process_xlsb_file df = .ok { cols := df.cols ++ [discCol], rows := [] } := by
  have hidx : df.cols.findIdx? (· = discCol) = none := by
    rw [List.findIdx?_eq_none_iff]
    intro x hx
    simp only [decide_eq_false_iff_not]
    exact fun e => hdisc (e ▸ hx)
  have hfil : (prepare df).rows.filter (rowPasses df.cols) = [] := by
    rw [List.filter_eq_nil_iff]
    intro r hr
    simp [hnof r hr]
  simp only [process_xlsb_file]
  rw [if_neg hne, if_neg (fun h => h hcols),
    if_neg (by rw [hnan]; exact Bool.false_ne_true)]
  simp only [appendDisc, prepare_cols, hfil, hidx, List.map_nil]

/-- C7, witness: success with a zero-row output table. -/
theorem empty_filter_success_witness :
    process_xlsb_file noDiscTable =
      .ok { cols := noDiscTable.cols ++ [discCol], rows := [] } :=
  empty_filter_success noDiscTable (by decide) (by decide) (by decide)
    (by decide) (by decide)

/-- Inversion of a successful run: the output is the discrepancy
column appended to the filtered, transformed input rows. -/
theorem process_ok_shape (df out : Table)
    (hok : process_xlsb_file df = .ok out) :
    out = appendDisc
      { cols := df.cols,
        rows := (df.rows.map (transformRow df.cols)).filter
          (rowPasses df.cols) } := by
  simp only [process_xlsb_file] at hok
  split at hok
  · exact Except.noConfusion hok
  · split at hok
    · exact Except.noConfusion hok
    · split at hok
      · exact Except.noConfusion hok
      · rw [Except.ok.injEq] at hok
        subst hok
        congr 1
        rw [Table.mk.injEq]
        refine ⟨prepare_cols df, ?_⟩
        rw [prepare_rows, prepare_cols]

/-- C2: on any successful run the output rows are exactly the
transformed input rows whose requested quantity strictly exceeds the
received one, kept in input order with no reordering or deduplication
(the output row list is literally a `filter` of a `map` of the input
row list), each extended by one discrepancy cell equal to
requested − received, hence strictly positive; and on the concrete
(358, 506), (80, 369), (934, 723) table only the third row survives,
with discrepancy 211. -/
theorem success_rows_exact (df out : Table)
    (hdisc : discCol ∉ df.cols)
    (hok : process_xlsb_file df = .ok out) :
    out.cols = df.cols ++ [discCol] ∧
    out.rows = ((df.rows.map (transformRow df.cols)).filter
      (rowPasses df.cols)).map (fun r => r ++ [discValue df.cols r]) ∧
    (∀ r, rowPasses df.cols r = true →
      ∃ a b, getCell df.cols r reqCol = .num a ∧
        getCell df.cols r recCol = .num b ∧ Dec.blt b a = true ∧
        discValue df.cols r = .num (a.sub b) ∧ 0 < (a.sub b).toRat ∧
        (a.sub b).toRat = a.toRat - b.toRat) ∧
    process_xlsb_file exampleTable = .ok exampleOut := by
  obtain rfl := process_ok_shape df out hok
  have hidx : df.cols.findIdx? (· = discCol) = none := by
    rw [List.findIdx?_eq_none_iff]
    intro x hx
    simp only [decide_eq_false_iff_not]
    exact fun e => hdisc (e ▸ hx)
  refine ⟨?_, ?_, ?_, by decide⟩
  · simp only [appendDisc, hidx]
  · simp only [appendDisc, hidx]
  · intro r hpass
    unfold rowPasses numGt at hpass
    cases hq : getCell df.cols r reqCol with
    | missing => rw [hq] at hpass; exact Bool.noConfusion hpass
    | str s => rw [hq] at hpass; exact Bool.noConfusion hpass
    | num a =>
      cases hc : getCell df.cols r recCol with
      | missing => rw [hq, hc] at hpass; exact Bool.noConfusion hpass
      | str s => rw [hq, hc] at hpass; exact Bool.noConfusion hpass
      | num b =>
        rw [hq, hc] at hpass
        refine ⟨a, b, rfl, rfl, hpass, ?_, Dec.sub_pos_of_blt a b hpass,
          Dec.toRat_sub a b⟩
        unfold discValue numSub
        rw [hq, hc]

/-- C2, witness: instantiated on the example table. -/
theorem success_rows_exact_witness :
    exampleOut.cols = exampleTable.cols ++ [discCol] :=
  (success_rows_exact exampleTable exampleOut (by decide) (by decide)).1

/-! ### The service layer: a bad-parse upload stays pending forever -/

theorem find_setTask (tasks : List (String × TaskState)) (idA idB : String)
    (st : TaskState) (hne : idB ≠ idA) :
    List.find? (fun p => p.1 = idB) (setTask tasks idA st) =
      List.find? (fun p => p.1 = idB) tasks := by
  induction tasks with
  | nil => rfl
  | cons p ps ih =>
    simp only [setTask, List.map_cons]
    by_cases hp : p.1 = idA
    · rw [if_pos hp]
      simp only [List.find?_cons, hp, Ne.symm hne, decide_False]
      exact ih
    · rw [if_neg hp]
      by_cases hb : p.1 = idB
      · simp [List.find?_cons, hb]
      · simp only [List.find?_cons, hb, decide_False]
        exact ih

theorem lookupTask_finish_ne (s : ApiState) (id id' : String)
    (res : Except PipelineError Table) (hne : id ≠ id') :
    lookupTask (finish_task s id' res) id = lookupTask s id := by
  unfold lookupTask finish_task
  rw [find_setTask _ _ _ _ hne]

/-- Every service transition keeps a registered-but-unscheduled pending
handle pending and unscheduled: later uploads use fresh UUIDs and
`process_task` completions only touch their own scheduled handle. -/
theorem step_preserves_pending (s s' : ApiState) (newId : String)
    (hstep : Step s s')
    (hP : lookupTask s newId = some .pending ∧ newId ∉ s.scheduled) :
    lookupTask s' newId = some .pending ∧ newId ∉ s'.scheduled := by
  cases hstep with
  | upload fname pok id' hfresh' =>
    have hne : newId ≠ id' := by
      intro e
      rw [← e] at hfresh'
      rw [hfresh'] at hP
      exact Option.noConfusion hP.1
    unfold upload_file
    by_cases hext' : pyEndsWith fname ".xlsx" = true
    · rw [if_neg (fun hn => hn hext')]
      cases pok with
      | false =>
        rw [if_pos (fun h => Bool.noConfusion h)]
        refine ⟨?_, hP.2⟩
        show lookupTask ⟨(id', .pending) :: s.tasks, s.scheduled⟩ newId = _
        unfold lookupTask
        rw [List.find?_cons_of_neg _ (by simpa using Ne.symm hne)]
        exact hP.1
      | true =>
        rw [if_neg (fun hn => hn rfl)]
        constructor
        · show lookupTask ⟨(id', .pending) :: s.tasks, _⟩ newId = _
          unfold lookupTask
          rw [List.find?_cons_of_neg _ (by simpa using Ne.symm hne)]
          exact hP.1
        · show newId ∉ id' :: s.scheduled
          intro hm
          rcases List.mem_cons.mp hm with h | h
          · exact hne h
          · exact hP.2 h
    · rw [if_pos hext']
      exact hP
  | finish id' res hid' =>
    have hne : newId ≠ id' := fun e => hP.2 (e ▸ hid')
    refine ⟨?_, ?_⟩
    · rw [lookupTask_finish_ne s newId id' res hne]
      exact hP.1
    · show newId ∉ s.scheduled.erase id'
      exact fun hm => hP.2 (List.mem_of_mem_erase hm)

/-- C10: an upload whose artifact has the right extension but fails the
parse check registers its handle as `"pending"` before the check,
schedules no `process_task`, and nothing afterwards ever removes or
transitions that handle — every later reachable service state still
reports `"pending"` for it (it can never reach `"success"` or
`"failed"`). -/
theorem badparse_pending_forever (s₀ s₂ : ApiState) (filename newId : String)
    (hext : pyEndsWith filename ".xlsx" = true)
    (_hfresh : lookupTask s₀ newId = none)
    (hsched : newId ∉ s₀.scheduled)
    (hsteps : Relation.ReflTransGen Step
      (upload_file s₀ filename false newId).1 s₂) :
    (upload_file s₀ filename false newId).2 = false ∧
    get_status s₂ newId = some .pending ∧ newId ∉ s₂.scheduled := by
  have hup2 : (upload_file s₀ filename false newId).2 = false := by
    unfold upload_file
    rw [if_neg (fun hn => hn hext), if_pos (fun h => Bool.noConfusion h)]
  have hbase :
      lookupTask (upload_file s₀ filename false newId).1 newId =
        some .pending ∧
      newId ∉ (upload_file s₀ filename false newId).1.scheduled := by
    unfold upload_file
    rw [if_neg (fun hn => hn hext), if_pos (fun h => Bool.noConfusion h)]
    refine ⟨?_, hsched⟩
    show lookupTask ⟨(newId, .pending) :: s₀.tasks, s₀.scheduled⟩ newId = _
    unfold lookupTask
    rw [List.find?_cons_of_pos _ (by simp)]
    rfl
  have hP2 : lookupTask s₂ newId = some .pending ∧ newId ∉ s₂.scheduled := by
    induction hsteps with
    | refl => exact hbase
    | tail _ hstep ih => exact step_preserves_pending _ _ newId hstep ih
  exact ⟨hup2, hP2.1, hP2.2⟩

/-- C10, witness: a fresh state, one bad-parse upload of `"t"`, then
one further successful upload of `"u"`; `"t"` still reports pending. -/
theorem badparse_pending_forever_witness :
    get_status (upload_file (upload_file ⟨[], []⟩ "a.xlsx" false "t").1
      "b.xlsx" true "u").1 "t" = some .pending :=
  (badparse_pending_forever ⟨[], []⟩ _ "a.xlsx" "t" (by decide) (by decide)
    (by decide)
    (Relation.ReflTransGen.single
      (Step.upload _ "b.xlsx" true "u" (by decide)))).2.1

end XlsxProc
